import Mathlib

/-!
Verification of the auto-mcp request pipeline (Go sources under
internal/parser, internal/requester, internal/config) against its
natural-language specification.

The Go code is shallowly embedded: Go maps that are only iterated or
looked up are modelled as association lists (a list stands for one
iteration order of the map; where a claim depends on the outcome being
order-independent this is noted at the definition), pointers that may be
nil become `Option`, and fallible functions return `Except String`.
-/

namespace AutoMCP

/-! ## Association-list helpers (Go `map[string]string` / `map[string]V`) -/

/-- Lookup in an association list; Go's `v, ok := m[k]` with `ok` as `Option`. -/
def alistGet {V : Type} (m : List (String × V)) (k : String) : Option V :=
  match m with
  | [] => none
  | (k', v) :: rest => if k' = k then some v else alistGet rest k

/-- Go's `m[k]` on a `map[string]string`: missing keys read as `""`. -/
def mapGetStr (m : List (String × String)) (k : String) : String :=
  (alistGet m k).getD ""

/-- Go's `m[k] = v`: replace the binding for `k` if present, else append it. -/
def alistSet {V : Type} (m : List (String × V)) (k : String) (v : V) :
    List (String × V) :=
  match m with
  | [] => [(k, v)]
  | (k', v') :: rest =>
    if k' = k then (k, v) :: rest else (k', v') :: alistSet rest k v

/-! ## String plumbing

The Go code leans on `strings.ReplaceAll`, `net/url` parsing/encoding and
`encoding/json`. Those are re-implemented here over `List Char` with
structural (fuel-based where needed) recursion so every definition
evaluates inside the kernel. Only ASCII-relevant behaviour is exercised by
the claims; multi-byte characters are still encoded faithfully per UTF-8. -/

/-- Byte-wise `≤` on char lists (Go compares strings byte-wise; for the
ASCII keys that occur here code-point order coincides with byte order). -/
def charListLe : List Char → List Char → Bool
  | [], _ => true
  | _ :: _, [] => false
  | a :: as, b :: bs =>
    if a.toNat < b.toNat then true
    else if b.toNat < a.toNat then false
    else charListLe as bs

/-- String `≤` used for Go's sorted map-key iteration (`sort.Strings`). -/
def strLe (a b : String) : Bool := charListLe a.toList b.toList

/-- Insert one keyed entry into a list sorted by `strLe` on the key. -/
def insertByKey {V : Type} (x : String × V) :
    List (String × V) → List (String × V)
  | [] => [x]
  | y :: ys => if strLe x.1 y.1 then x :: y :: ys else y :: insertByKey x ys

/-- Insertion sort by key, modelling Go's sorted iteration over map keys
(`encoding/json` object keys, `url.Values.Encode`, `fmt` map printing). -/
def sortByKey {V : Type} : List (String × V) → List (String × V)
  | [] => []
  | x :: xs => insertByKey x (sortByKey xs)

/-- Fuel-based core of `strings.ReplaceAll`: replace each left-most,
non-overlapping occurrence of `pattern`. `fuel` bounds the scan; each step
consumes at least one character, so `s.length` fuel is always enough. -/
def replaceAllAux (pattern repl : List Char) : Nat → List Char → List Char
  | 0, s => s
  | fuel + 1, s =>
    if pattern ≠ [] ∧ pattern.isPrefixOf s then
      repl ++ replaceAllAux pattern repl fuel (s.drop pattern.length)
    else
      match s with
      | [] => []
      | c :: rest => c :: replaceAllAux pattern repl fuel rest

/-- strings.ReplaceAll (the patterns used here are never empty). -/
def replaceAll (s pattern repl : String) : String :=
  ⟨replaceAllAux pattern.toList repl.toList s.toList.length s.toList⟩

/-- Split at the first occurrence of `c`: the part before, and — when `c`
occurs — the part after it. -/
def splitAtFirst (c : Char) : List Char → List Char × Option (List Char)
  | [] => ([], none)
  | x :: rest =>
    if x = c then ([], some rest)
    else
      let (a, b) := splitAtFirst c rest
      (x :: a, b)

/-- Split on every occurrence of `c` (`strings.Split` semantics: `n`
occurrences yield `n+1` parts). -/
def splitOnChar (c : Char) : List Char → List (List Char)
  | [] => [[]]
  | x :: rest =>
    match splitOnChar c rest with
    | [] => [[]]
    | p :: ps => if x = c then [] :: p :: ps else (x :: p) :: ps

/-- Upper-case hex digit, as Go's percent-encoding prints them. -/
def hexDigitUpper (n : Nat) : Char := "0123456789ABCDEF".toList.getD n '0'

/-- Two-digit upper-case hex of a byte. -/
def hex2 (b : Nat) : String := ⟨[hexDigitUpper (b / 16 % 16), hexDigitUpper (b % 16)]⟩

/-- Four-digit lower-case hex, for JSON `\uXXXX` escapes. -/
def hex4 (n : Nat) : String :=
  ⟨["0123456789abcdef".toList.getD (n / 4096 % 16) '0',
    "0123456789abcdef".toList.getD (n / 256 % 16) '0',
    "0123456789abcdef".toList.getD (n / 16 % 16) '0',
    "0123456789abcdef".toList.getD (n % 16) '0']⟩

/-- UTF-8 bytes of a code point. -/
def utf8Bytes (n : Nat) : List Nat :=
  if n < 0x80 then [n]
  else if n < 0x800 then [0xC0 + n / 64, 0x80 + n % 64]
  else if n < 0x10000 then [0xE0 + n / 4096, 0x80 + n / 64 % 64, 0x80 + n % 64]
  else [0xF0 + n / 262144, 0x80 + n / 4096 % 64, 0x80 + n / 64 % 64, 0x80 + n % 64]

/-- Go `url.QueryEscape` keeps alphanumerics and `-_.~` (the unreserved
set for query components). -/
def isUnreservedQueryChar (c : Char) : Bool :=
  (('a' ≤ c ∧ c ≤ 'z') ∨ ('A' ≤ c ∧ c ≤ 'Z') ∨ ('0' ≤ c ∧ c ≤ '9')
    ∨ c = '-' ∨ c = '_' ∨ c = '.' ∨ c = '~' : Bool)

/-- url.QueryEscape: unreserved chars kept, space becomes `+`, everything
else is percent-encoded byte-wise. -/
def queryEscape (s : String) : String :=
  String.join (s.toList.map fun c =>
    if isUnreservedQueryChar c then String.singleton c
    else if c = ' ' then "+"
    else String.join ((utf8Bytes c.toNat).map fun b => "%" ++ hex2 b))

/-- Hex digit value, if any. -/
def hexVal (c : Char) : Option Nat :=
  if '0' ≤ c ∧ c ≤ '9' then some (c.toNat - '0'.toNat)
  else if 'a' ≤ c ∧ c ≤ 'f' then some (c.toNat - 'a'.toNat + 10)
  else if 'A' ≤ c ∧ c ≤ 'F' then some (c.toNat - 'A'.toNat + 10)
  else none

/-- url.QueryUnescape on char lists: `+` becomes space, `%XX` decodes (to a
single byte; the claims only exercise ASCII), a malformed escape is an
error (`none`). -/
def queryUnescapeAux : List Char → Option (List Char)
  | [] => some []
  | '+' :: rest => (queryUnescapeAux rest).map (' ' :: ·)
  | '%' :: h :: l :: rest =>
    match hexVal h, hexVal l with
    | some hv, some lv => (queryUnescapeAux rest).map (Char.ofNat (hv * 16 + lv) :: ·)
    | _, _ => none
  | '%' :: _ => none
  | c :: rest => (queryUnescapeAux rest).map (c :: ·)

/-! ## url.Values (map[string][]string) -/

/-- Values.Add: append to the existing key's list, else add the key. -/
def valuesAdd (q : List (String × List String)) (k v : String) :
    List (String × List String) :=
  match q with
  | [] => [(k, [v])]
  | (k', vs) :: rest =>
    if k' = k then (k', vs ++ [v]) :: rest else (k', vs) :: valuesAdd rest k v

/-- Values.Set: replace the key's list with the single value. -/
def valuesSet (q : List (String × List String)) (k v : String) :
    List (String × List String) :=
  match q with
  | [] => [(k, [v])]
  | (k', vs) :: rest =>
    if k' = k then (k', [v]) :: rest else (k', vs) :: valuesSet rest k v

/-- One `key=value` pair of url.ParseQuery: split at the first `=`,
unescape both sides; pairs containing `;` or a bad escape are skipped
(ParseQuery records the error and continues). -/
def parseQueryPair (part : List Char) (q : List (String × List String)) :
    List (String × List String) :=
  if part = [] then q
  else if part.contains ';' then q
  else
    let (k, v) := splitAtFirst '=' part
    match queryUnescapeAux k, queryUnescapeAux (v.getD []) with
    | some key, some value => valuesAdd q ⟨key⟩ ⟨value⟩
    | _, _ => q

/-- url.ParseQuery: split the raw query on `&` and accumulate pairs. -/
def parseQuery (rawQuery : String) : List (String × List String) :=
  if rawQuery = "" then []
  else (splitOnChar '&' rawQuery.toList).foldl (fun q part => parseQueryPair part q) []

/-- Values.Encode: keys sorted, each value escaped, joined with `&`. -/
def valuesEncode (q : List (String × List String)) : String :=
  String.intercalate "&"
    ((sortByKey q).foldr
      (fun kv acc => kv.2.map (fun v => queryEscape kv.1 ++ "=" ++ queryEscape v) ++ acc)
      [])

/-! ## Go values and encoding/json

Caller arguments arrive as `map[string]interface{}`. The dynamic values
that can flow through the modelled paths are the JSON-decodable ones; they
are closed into `JValue` (numbers as integers — no claim touches numeric
formatting; `multipart.File` values are outside this domain, so the
type-assertion in the multipart path is modelled as always failing). -/

inductive JValue where
  | null : JValue
  | boolean : Bool → JValue
  | num : Int → JValue
  | str : String → JValue
  | arr : List JValue → JValue
  | obj : List (String × JValue) → JValue

/-- encoding/json string escaping (with Go's default HTML escaping of
`<`, `>`, `&`). -/
def jsonEscapeChar (c : Char) : String :=
  if c = '"' then "\\\""
  else if c = '\\' then "\\\\"
  else if c = '\n' then "\\n"
  else if c = '\r' then "\\r"
  else if c = '\t' then "\\t"
  else if c = '<' ∨ c = '>' ∨ c = '&' ∨ c.toNat < 0x20 then "\\u" ++ hex4 c.toNat
  else String.singleton c

/-- Quote and escape a JSON string. -/
def jsonQuote (s : String) : String :=
  "\"" ++ String.join (s.toList.map jsonEscapeChar) ++ "\""

mutual
/-- json.Marshal. Map keys are emitted in sorted order, as Go does;
sorting the per-field marshalled strings by key equals Go's
sort-keys-then-marshal because marshalling is per-entry. -/
def jsonMarshal : JValue → String
  | .null => "null"
  | .boolean b => if b then "true" else "false"
  | .num n => toString n
  | .str s => jsonQuote s
  | .arr xs => "[" ++ String.intercalate "," (jsonMarshalList xs) ++ "]"
  | .obj fields =>
    "\x7b" ++ String.intercalate ","
      ((sortByKey (jsonMarshalFields fields)).map
        (fun kv => jsonQuote kv.1 ++ ":" ++ kv.2)) ++ "\x7d"

/-- Marshal array elements in order. -/
def jsonMarshalList : List JValue → List String
  | [] => []
  | x :: xs => jsonMarshal x :: jsonMarshalList xs

/-- Marshal each object field's value, keeping its key. -/
def jsonMarshalFields : List (String × JValue) → List (String × String)
  | [] => []
  | (k, v) :: fs => (k, jsonMarshal v) :: jsonMarshalFields fs
end

mutual
/-- fmt.Sprintf("%v", value): strings verbatim, numbers and booleans in
their Go default form, nil as `<nil>`, slices as space-separated brackets,
maps as `map[k:v ...]` with sorted keys. -/
def goFormat : JValue → String
  | .null => "<nil>"
  | .boolean b => if b then "true" else "false"
  | .num n => toString n
  | .str s => s
  | .arr xs => "[" ++ String.intercalate " " (goFormatList xs) ++ "]"
  | .obj fields =>
    "map[" ++ String.intercalate " "
      ((sortByKey (goFormatFields fields)).map (fun kv => kv.1 ++ ":" ++ kv.2)) ++ "]"

/-- Format slice elements in order. -/
def goFormatList : List JValue → List String
  | [] => []
  | x :: xs => goFormat x :: goFormatList xs

/-- Format each map entry's value, keeping its key. -/
def goFormatFields : List (String × JValue) → List (String × String)
  | [] => []
  | (k, v) :: fs => (k, goFormat v) :: goFormatFields fs
end

/-! ## Adjuster (internal/parser/adjuster.go, internal/models)

The `models.MCPAdjustments` struct is reconstructed from its uses in
`adjuster.go` and the TUI export code: `Routes` is a list of
`RouteSelection{Path, Methods}`, `Descriptions` a list of
`RouteDescription{Path, Updates}` with `RouteFieldUpdate{Method,
NewDescription}`. -/

/-- models.RouteSelection: a path with its allowed methods. -/
structure RouteSelection where
  path : String
  methods : List String
deriving Repr, DecidableEq

/-- models.RouteFieldUpdate: a per-method description override. -/
structure RouteFieldUpdate where
  method : String
  newDescription : String
deriving Repr, DecidableEq

/-- models.RouteDescription: a path with its per-method overrides. -/
structure RouteDescription where
  path : String
  updates : List RouteFieldUpdate
deriving Repr, DecidableEq

/-- models.MCPAdjustments: the optional routes/descriptions adjustment file. -/
structure MCPAdjustments where
  routes : List RouteSelection
  descriptions : List RouteDescription
deriving Repr, DecidableEq

/-- Loop body of Adjuster.ExistsInMCP: scan the selections; at the first
entry whose path matches, answer whether the method is listed (the Go loop
returns from inside the `if`, so later entries with the same path are
never consulted); if no entry matches the path, answer false. -/
def existsInRoutes (sels : List RouteSelection) (route method : String) : Bool :=
  match sels with
  | [] => false
  | sel :: rest =>
    if sel.path = route then sel.methods.contains method
    else existsInRoutes rest route method

/-- Adjuster.ExistsInMCP: `adjustments` is the possibly-nil pointer held by
the Adjuster; nil or empty Routes means no filtering. -/
def ExistsInMCP (adjustments : Option MCPAdjustments) (route method : String) :
    Bool :=
  match adjustments with
  | none => true
  | some a =>
    if a.routes.length = 0 then true
    else existsInRoutes a.routes route method

/-- Inner loop of Adjuster.GetDescription: first update whose method matches. -/
def findUpdate (updates : List RouteFieldUpdate) (method : String) :
    Option String :=
  match updates with
  | [] => none
  | u :: rest =>
    if u.method = method then some u.newDescription else findUpdate rest method

/-- Outer loop of Adjuster.GetDescription: at the first entry whose path
matches, return the matching update's description or — because the Go loop
`break`s there — the original description; later entries with the same path
are never consulted. -/
def descFromDescriptions (descs : List RouteDescription)
    (route method originalDesc : String) : String :=
  match descs with
  | [] => originalDesc
  | d :: rest =>
    if d.path = route then
      match findUpdate d.updates method with
      | some nd => nd
      | none => originalDesc
    else descFromDescriptions rest route method originalDesc

/-- Adjuster.GetDescription: nil or empty Descriptions returns the original. -/
def GetDescription (adjustments : Option MCPAdjustments)
    (route method originalDesc : String) : String :=
  match adjustments with
  | none => originalDesc
  | some a =>
    if a.descriptions.length = 0 then originalDesc
    else descFromDescriptions a.descriptions route method originalDesc

/-! ## SpecNormalizer (SwaggerParser.detectAndParseOpenAPI / convertOpenAPI2to3)

The input bytes matter to the modelled control flow only through: whether
they are valid JSON, and the top-level `"swagger"` / `"openapi"` fields
(string-valued when present — `openapi2.T.Swagger` is a Go string field,
and no claim exercises non-string version values). The external library
steps after a successful version check (openapi2conv.ToV3 and
openapi3.Loader.LoadFromData) are folded into the success constructors. -/

/-- strings.HasPrefix. -/
def hasPrefixStr (s p : String) : Bool := p.toList.isPrefixOf s.toList

/-- Spec input bytes, abstracted to what the version-detection logic reads. -/
inductive SpecBytes where
  | malformed : SpecBytes
  | validJSON : (swagger : Option String) → (openapi : Option String) → SpecBytes
deriving Repr, DecidableEq

/-- Outcome classification of SwaggerParser.detectAndParseOpenAPI. -/
inductive SpecParseOutcome where
  | invalidJSON : SpecParseOutcome
  | missingVersion : SpecParseOutcome
  | unsupportedSwaggerVersion : String → SpecParseOutcome
  | unsupportedOpenAPIVersion : String → SpecParseOutcome
  | convertedFromSwagger2 : SpecParseOutcome
  | parsedOpenAPI3 : SpecParseOutcome
deriving Repr, DecidableEq

/-- True for the outcomes detectAndParseOpenAPI reports as errors. -/
def isSpecError : SpecParseOutcome → Bool
  | .invalidJSON => true
  | .missingVersion => true
  | .unsupportedSwaggerVersion _ => true
  | .unsupportedOpenAPIVersion _ => true
  | .convertedFromSwagger2 => false
  | .parsedOpenAPI3 => false

/-- SwaggerParser.detectAndParseOpenAPI: malformed JSON fails first with the
wrapped parse error; then the version fields are inspected — neither
present is the missing-version error; a present `swagger` field routes to
convertOpenAPI2to3, which requires exactly `"2.0"`; otherwise a present
`openapi` field must be `"3."`-prefixed before the v3 loader runs. -/
def detectAndParseOpenAPI : SpecBytes → SpecParseOutcome
  | .malformed => .invalidJSON
  | .validJSON swagger openapi =>
    match swagger, openapi with
    | none, none => .missingVersion
    | some v, _ =>
      if v = "2.0" then .convertedFromSwagger2 else .unsupportedSwaggerVersion v
    | none, some v =>
      if hasPrefixStr v "3." then .parsedOpenAPI3 else .unsupportedOpenAPIVersion v

/-! ## SchemaTranslator (internal/parser/schema.go)

openapi3.Schema, reduced to the fields schemaToMCPOptions and its helpers
read. A `*SchemaRef` is `Option` of a ref whose `Value` is again `Option`;
numeric constraint payloads (Go float64) are modelled as integers — no
claim inspects their arithmetic. -/

/-- Scalar fields of openapi3.Schema. -/
structure SchemaScalars where
  description : String := ""
  enum : List JValue := []
  maxLength : Option Nat := none
  minLength : Nat := 0
  pattern : String := ""
  maxNum : Option Int := none
  minNum : Option Int := none
  multipleOf : Option Int := none
  required : List String := []
  maxProps : Option Nat := none
  minProps : Nat := 0
  addPropsHas : Option Bool := none

/-- openapi3.Schema with its nested schema references. `types` is the
possibly-nil `*openapi3.Types` list; `items` is the possibly-nil Items ref
holding a possibly-nil value, and each property's ref holds a possibly-nil
value. -/
inductive OSchema where
  | mk : Option (List String) → SchemaScalars → Option (Option OSchema) →
      List (String × Option OSchema) → Option (Option OSchema) → OSchema

/-- Declared types (`schema.Value.Type`). -/
def OSchema.types : OSchema → Option (List String)
  | .mk t _ _ _ _ => t

/-- Scalar constraint fields. -/
def OSchema.scalars : OSchema → SchemaScalars
  | .mk _ s _ _ _ => s

/-- Items reference (`schema.Value.Items`). -/
def OSchema.items : OSchema → Option (Option OSchema)
  | .mk _ _ i _ _ => i

/-- Property map (`schema.Value.Properties`), one iteration order. -/
def OSchema.properties : OSchema → List (String × Option OSchema)
  | .mk _ _ _ p _ => p

/-- AdditionalProperties.Schema reference. -/
def OSchema.addPropsSchema : OSchema → Option (Option OSchema)
  | .mk _ _ _ _ a => a

/-- The Go `mcp.PropertyOption`s appended by schema.go, as data. A
property's flattened JSON-schema map (`propMap`) is a `JValue` object. -/
inductive PropOpt where
  | description : String → PropOpt
  | required : PropOpt
  | enum : List String → PropOpt
  | maxLen : Nat → PropOpt
  | minLen : Nat → PropOpt
  | pattern : String → PropOpt
  | maxNum : Int → PropOpt
  | minNum : Int → PropOpt
  | multipleOf : Int → PropOpt
  | itemsRef : Option OSchema → PropOpt
  | properties : List (String × List (String × JValue)) → PropOpt
  | maxProperties : Int → PropOpt
  | minProperties : Int → PropOpt
  | additionalPropertiesSchema : Option OSchema → PropOpt
  | additionalPropertiesBool : Bool → PropOpt
  | requiredList : List String → PropOpt

/-- Which `mcp.With*` wrapper the translation chose. -/
inductive ToolOptionKind where
  | object : ToolOptionKind
  | array : ToolOptionKind
  | strKind : ToolOptionKind
  | number : ToolOptionKind
  | boolean : ToolOptionKind
deriving Repr, DecidableEq

/-- The mcp.ToolOption produced for one parameter. -/
structure MCPToolOption where
  name : String
  kind : ToolOptionKind
  opts : List PropOpt

/-- createArrayOption. -/
def createArrayOption (s : OSchema) (name : String) (baseOpts : List PropOpt) :
    MCPToolOption :=
  let arrayOpts := match s.items with
    | some itemSchema => baseOpts ++ [.itemsRef itemSchema]
    | none => baseOpts
  { name := name, kind := .array, opts := arrayOpts }

/-- The constraint entries of one property's flattened `propMap`, after the
`"type"` and `"description"` entries: string properties record
maxLength/minLength/pattern/enum (the enum verbatim, unfiltered), numeric
ones maximum/minimum/multipleOf. -/
def propConstraintEntries (pv : OSchema) : List (String × JValue) :=
  match pv.types with
  | some ts =>
    if ts.contains "string" then
      (match pv.scalars.maxLength with
        | some n => [("maxLength", JValue.num n)] | none => []) ++
      (if pv.scalars.minLength ≠ 0 then [("minLength", JValue.num pv.scalars.minLength)] else []) ++
      (if pv.scalars.pattern ≠ "" then [("pattern", JValue.str pv.scalars.pattern)] else []) ++
      (if pv.scalars.enum.length ≠ 0 then [("enum", JValue.arr pv.scalars.enum)] else [])
    else if ts.contains "number" ∨ ts.contains "integer" then
      (match pv.scalars.maxNum with
        | some n => [("maximum", JValue.num n)] | none => []) ++
      (match pv.scalars.minNum with
        | some n => [("minimum", JValue.num n)] | none => []) ++
      (match pv.scalars.multipleOf with
        | some n => [("multipleOf", JValue.num n)] | none => [])
    else []
  | none => []

/-- One property's flattened `propMap`: type (first declared type; the Go
code indexes `Slice()[0]`, so a present-but-empty type list is outside the
modelled domain and reads as no entry), description when non-empty, then
type-specific constraints. A nil property value gives an empty map. -/
def propMapOf (pv : Option OSchema) : List (String × JValue) :=
  match pv with
  | none => []
  | some pv =>
    (match pv.types with
      | some (t :: _) => [("type", JValue.str t)]
      | some [] => []
      | none => []) ++
    (if pv.scalars.description ≠ "" then
      [("description", JValue.str pv.scalars.description)] else []) ++
    propConstraintEntries pv

/-- createObjectOption. -/
def createObjectOption (s : OSchema) (name : String) (baseOpts : List PropOpt) :
    MCPToolOption :=
  let objOpts := baseOpts
  let objOpts := if s.properties.length ≠ 0 then
      objOpts ++ [.properties (s.properties.map (fun p => (p.1, propMapOf p.2)))]
    else objOpts
  let objOpts := match s.scalars.maxProps with
    | some n => objOpts ++ [.maxProperties n]
    | none => objOpts
  let objOpts := if s.scalars.minProps ≠ 0 then
      objOpts ++ [.minProperties s.scalars.minProps]
    else objOpts
  let objOpts := match s.scalars.addPropsHas with
    | some has =>
      if has then
        match s.addPropsSchema with
        | some ref => objOpts ++ [.additionalPropertiesSchema ref]
        | none => objOpts ++ [.additionalPropertiesBool true]
      else objOpts
    | none => objOpts
  let objOpts := if s.scalars.required.length ≠ 0 then
      objOpts ++ [.requiredList s.scalars.required]
    else objOpts
  { name := name, kind := .object, opts := objOpts }

/-- createStringOption: the enum entries are filtered to strings,
non-string entries silently dropped. -/
def createStringOption (s : OSchema) (name : String) (baseOpts : List PropOpt) :
    MCPToolOption :=
  let stringOpts := baseOpts
  let stringOpts := if s.scalars.enum.length ≠ 0 then
      let enumValues := s.scalars.enum.foldl
        (fun acc v => match v with | JValue.str sv => acc ++ [sv] | _ => acc) []
      if enumValues.length ≠ 0 then stringOpts ++ [.enum enumValues] else stringOpts
    else stringOpts
  let stringOpts := match s.scalars.maxLength with
    | some n => stringOpts ++ [.maxLen n]
    | none => stringOpts
  let stringOpts := if s.scalars.minLength ≠ 0 then
      stringOpts ++ [.minLen s.scalars.minLength]
    else stringOpts
  let stringOpts := if s.scalars.pattern ≠ "" then
      stringOpts ++ [.pattern s.scalars.pattern]
    else stringOpts
  { name := name, kind := .strKind, opts := stringOpts }

/-- createNumberOption. -/
def createNumberOption (s : OSchema) (name : String) (baseOpts : List PropOpt) :
    MCPToolOption :=
  let numberOpts := baseOpts
  let numberOpts := match s.scalars.maxNum with
    | some n => numberOpts ++ [.maxNum n]
    | none => numberOpts
  let numberOpts := match s.scalars.minNum with
    | some n => numberOpts ++ [.minNum n]
    | none => numberOpts
  let numberOpts := match s.scalars.multipleOf with
    | some n => numberOpts ++ [.multipleOf n]
    | none => numberOpts
  { name := name, kind := .number, opts := numberOpts }

/-- schemaToMCPOptions. The argument is the possibly-nil `*SchemaRef`
whose `Value` is again possibly nil; a nil ref, nil value or nil type list
yields the generic "Request body" object node. Note the second
`Includes(TypeString)` case in the Go switch is unreachable (shadowed by
the earlier identical case) and therefore absent here. The function has no
error result in Go and none here. -/
def schemaToMCPOptions (schema : Option (Option OSchema)) (name : String)
    (required : Bool) : MCPToolOption :=
  match schema with
  | none | some none =>
    { name := name, kind := .object,
      opts := [.description "Request body"] ++ (if required then [.required] else []) }
  | some (some s) =>
    match s.types with
    | none =>
      { name := name, kind := .object,
        opts := [.description "Request body"] ++ (if required then [.required] else []) }
    | some ts =>
      let baseOpts := [PropOpt.description s.scalars.description] ++
        (if required then [PropOpt.required] else [])
      if ts.contains "array" then createArrayOption s name baseOpts
      else if ts.contains "object" then createObjectOption s name baseOpts
      else if ts.contains "string" then createStringOption s name baseOpts
      else if ts.contains "number" ∨ ts.contains "integer" then
        createNumberOption s name baseOpts
      else if ts.contains "boolean" then
        { name := name, kind := .boolean, opts := baseOpts }
      else
        { name := name, kind := .object,
          opts := baseOpts ++
            [.description (s.scalars.description ++ " (unknown type: " ++
              toString ts ++ ")")] }

/-! ## Requester data model (internal/requester, internal/config) -/

/-- requester.FileUploadConfig. -/
structure FileUploadConfig where
  fieldName : String
  allowedTypes : List String
  maxSize : Int
deriving Repr, DecidableEq

/-- requester.MethodConfig. -/
structure MethodConfig where
  queryParams : List String := []
  formFields : List String := []
  fileUpload : Option FileUploadConfig := none
deriving Repr, DecidableEq

/-- requester.RouteConfig (the `Parameters` map is never consulted by the
modelled code and is omitted). -/
structure RouteConfig where
  path : String
  method : String
  description : String := ""
  headers : List (String × String) := []
  methodConfig : MethodConfig := {}
deriving Repr, DecidableEq

/-- config.EndpointConfig (the fields the requester reads). -/
structure EndpointConfig where
  baseURL : String
  headers : List (String × String) := []
  authType : String := "none"
  authConfig : List (String × String) := []
deriving Repr, DecidableEq

/-- The body handed to the HTTP request: JSON bytes (as their string) or a
multipart payload. Go passes an `io.Reader`; `none` is a nil reader. -/
inductive Body where
  | jsonBytes : String → Body
  | multipart : List (String × String) → Body
deriving Repr, DecidableEq

/-- http.Request, reduced to what the modelled code reads and writes. The
header names used here are already in canonical MIME form, so
`http.Header.Set`'s canonicalisation is the identity on them. -/
structure HttpRequest where
  method : String
  url : String
  headers : List (String × String)
  body : Option Body
deriving Repr, DecidableEq

/-- http.Header.Set on a request. -/
def reqSetHeader (req : HttpRequest) (k v : String) : HttpRequest :=
  { req with headers := alistSet req.headers k v }

/-- requester.Request: the fully built request returned by BuildRequest. -/
structure Request where
  url : String
  method : String
  body : Option Body
  headers : List (String × String)
  contentType : String
  httpRequest : HttpRequest
deriving Repr, DecidableEq

/-! ## AuthManager (internal/requester auth manager) -/

/-- Standard base64 alphabet. -/
def base64Alphabet : List Char :=
  "ABCDEFGHIJKLMNOPQRSTUVWXYZabcdefghijklmnopqrstuvwxyz0123456789+/".toList

/-- Standard base64 with padding, over a byte list. -/
def base64Encode : List Nat → String
  | [] => ""
  | [b1] =>
    ⟨[base64Alphabet.getD (b1 / 4) 'A',
      base64Alphabet.getD (b1 % 4 * 16) 'A', '=', '=']⟩
  | [b1, b2] =>
    ⟨[base64Alphabet.getD (b1 / 4) 'A',
      base64Alphabet.getD (b1 % 4 * 16 + b2 / 16) 'A',
      base64Alphabet.getD (b2 % 16 * 4) 'A', '=']⟩
  | b1 :: b2 :: b3 :: rest =>
    (⟨[base64Alphabet.getD (b1 / 4) 'A',
       base64Alphabet.getD (b1 % 4 * 16 + b2 / 16) 'A',
       base64Alphabet.getD (b2 % 16 * 4 + b3 / 64) 'A',
       base64Alphabet.getD (b3 % 64) 'A']⟩ : String) ++ base64Encode rest

/-- UTF-8 bytes of a string. -/
def stringBytes (s : String) : List Nat :=
  (s.toList.map (fun c => utf8Bytes c.toNat)).flatten

/-- http.Request.SetBasicAuth: `Authorization: Basic base64(user:pass)`. -/
def setBasicAuth (req : HttpRequest) (username password : String) : HttpRequest :=
  reqSetHeader req "Authorization"
    ("Basic " ++ base64Encode (stringBytes (username ++ ":" ++ password)))

/-- requester.HTTPAuthManager: the auth type tag and its config map. -/
structure HTTPAuthManager where
  authType : String
  authConfig : List (String × String)
deriving Repr, DecidableEq

/-- HTTPAuthManager.ApplyAuth. Go mutates the request in place and returns
an error; here the pair carries the (possibly updated) request and the
error, so "request left unmodified" is expressible. Missing config keys
read as `""`, as Go map indexing does. -/
def ApplyAuth (a : HTTPAuthManager) (req : HttpRequest) :
    HttpRequest × Option String :=
  if a.authType = "none" then (req, none)
  else if a.authType = "basic" then
    (setBasicAuth req (mapGetStr a.authConfig "username")
      (mapGetStr a.authConfig "password"), none)
  else if a.authType = "bearer" then
    (reqSetHeader req "Authorization" ("Bearer " ++ mapGetStr a.authConfig "token"),
      none)
  else if a.authType = "api_key" then
    let header := mapGetStr a.authConfig "header"
    let header := if header = "" then "X-API-Key" else header
    (reqSetHeader req header (mapGetStr a.authConfig "key"), none)
  else if a.authType = "oauth2" then
    (reqSetHeader req "Authorization" ("Bearer " ++ mapGetStr a.authConfig "token"),
      none)
  else (req, some ("unsupported auth type: " ++ a.authType))

/-! ## HTTPRequestBuilder (the builder half of internal/requester) -/

/-- HTTPRequestBuilder.buildURL: concatenate base URL and path template,
then replace each `{key}` whose key occurs in the args. The args list
stands for one iteration order of the Go map; with the distinct keys and
placeholder-free values of the claims the result is order-independent. -/
def buildURL (baseURL path : String) (params : Option (List (String × JValue))) :
    String :=
  (params.getD []).foldl
    (fun url kv => replaceAll url ("\x7b" ++ kv.1 ++ "\x7d") (goFormat kv.2))
    (baseURL ++ path)

/-- HTTPRequestBuilder.addQueryParams: parse the URL (modelled as the split
at the first `?` — the URLs built here always parse, so url.Parse's error
branch returning the input unchanged is unreachable), `Set` every arg
except `body` and `file` into the query, and re-encode (sorted). -/
def addQueryParams (baseURL : String) (params : Option (List (String × JValue))) :
    String :=
  let (pre, rawQuery) := splitAtFirst '?' baseURL.toList
  let q := parseQuery ⟨rawQuery.getD []⟩
  let q := (params.getD []).foldl
    (fun q kv =>
      if kv.1 = "body" ∨ kv.1 = "file" then q
      else valuesSet q kv.1 (goFormat kv.2)) q
  let encoded := valuesEncode q
  if encoded = "" then ⟨pre⟩ else ⟨pre⟩ ++ "?" ++ encoded

/-- multipart.Writer.FormDataContentType, minus the random boundary suffix
(no claim inspects it). -/
def formDataContentType : String := "multipart/form-data; boundary="

/-- HTTPRequestBuilder.createMultipartBody. `params[fieldName]` is
type-asserted to `multipart.File` in Go; `JValue` contains no file values,
so the file part is never added in this model. Writing to the in-memory
buffer cannot fail, so the writer's error branches are unreachable. -/
def createMultipartBody (routeConfig : RouteConfig)
    (params : Option (List (String × JValue))) :
    Except String (Option Body × String) :=
  let parts := routeConfig.methodConfig.formFields.foldl
    (fun ps field =>
      match alistGet (params.getD []) field with
      | some v => ps ++ [(field, goFormat v)]
      | none => ps) []
  .ok (some (.multipart parts), formDataContentType)

/-- HTTPRequestBuilder.createRequestBody. json.Marshal cannot fail on the
`JValue` domain, so its error branches are unreachable here. -/
def createRequestBody (routeConfig : RouteConfig)
    (params : Option (List (String × JValue))) :
    Except String (Option Body × String) :=
  if routeConfig.method = "GET" then .ok (none, "")
  else if routeConfig.method = "POST" ∨ routeConfig.method = "PUT"
      ∨ routeConfig.method = "PATCH" then
    match routeConfig.methodConfig.fileUpload with
    | some _ => createMultipartBody routeConfig params
    | none =>
      match alistGet (params.getD []) "body" with
      | some b => .ok (some (.jsonBytes (jsonMarshal b)), "application/json")
      | none => .ok (none, "")
  else
    match params with
    | some m => .ok (some (.jsonBytes (jsonMarshal (.obj m))), "application/json")
    | none => .ok (none, "")

/-- HTTPRequestBuilder.BuildRequest. The auth manager interface is passed
as the function `applyAuthFn` (the concrete `ApplyAuth` above is one
instance); `routeConfig` is the builder's possibly-nil pointer and
`params` the possibly-nil args map. http.NewRequestWithContext only fails
on an invalid method or unparsable URL, neither of which the modelled
inputs produce, so it is total here. -/
def BuildRequest (serviceCfg : EndpointConfig)
    (applyAuthFn : HttpRequest → HttpRequest × Option String)
    (routeConfig : Option RouteConfig)
    (params : Option (List (String × JValue))) : Except String Request :=
  match routeConfig with
  | none => .error "route config is nil"
  | some rc =>
    let url := buildURL serviceCfg.baseURL rc.path params
    let url := if rc.method = "GET" then addQueryParams url params else url
    match createRequestBody rc params with
    | .error e => .error ("failed to create request body: " ++ e)
    | .ok (body, contentType) =>
      let headers := serviceCfg.headers.foldl (fun h kv => alistSet h kv.1 kv.2) []
      let headers := rc.headers.foldl (fun h kv => alistSet h kv.1 kv.2) headers
      let httpReq : HttpRequest :=
        { method := rc.method, url := url,
          headers := headers.foldl (fun h kv => alistSet h kv.1 kv.2) [],
          body := body }
      let httpReq :=
        if contentType ≠ "" then reqSetHeader httpReq "Content-Type" contentType
        else httpReq
      match applyAuthFn httpReq with
      | (_, some e) => .error ("failed to apply authentication: " ++ e)
      | (authedReq, none) =>
        .ok { url := url, method := rc.method, body := body, headers := headers,
              contentType := contentType, httpRequest := authedReq }

/-! ## Executor (internal/requester/http_requester.go) -/

/-- What the Go http.Client delivers for one call: the wire response's
status and headers, plus the outcome of draining its body with io.ReadAll
(a read can still fail mid-stream, e.g. on a timeout). -/
structure GoHTTPResponse where
  statusCode : Int
  headers : List (String × String)
  bodyRead : Except String (List Nat)
deriving Repr

/-- requester.Response (the `Error` field is never set by the modelled
code and is omitted). -/
structure Response where
  statusCode : Int
  body : List Nat
  headers : List (String × String)
deriving Repr, DecidableEq

/-- HTTPRequester.execute, parameterised by the transport outcome
`doResult` of `client.Do` (connection failure, DNS failure, timeout and
cancellation all surface as its error case). The deferred body-close error
is assigned to a dead local in Go and never propagates, so it is not
modelled. -/
def execute (doResult : Except String GoHTTPResponse) : Except String Response :=
  match doResult with
  | .error e => .error ("request failed: " ++ e)
  | .ok resp =>
    match resp.bodyRead with
    | .error e => .error ("failed to read response body: " ++ e)
    | .ok bodyBytes =>
      .ok { statusCode := resp.statusCode, body := bodyBytes, headers := resp.headers }

/-! ## RouteExtractor (SwaggerParser.createRouteConfig) -/

/-- openapi3.Response, reduced to its Content map: `none` is a nil map,
`some cts` a map whose keys enumerate in the order given. -/
structure GoResponseObj where
  content : Option (List String)
deriving Repr, DecidableEq

/-- openapi3.ResponseRef (possibly-nil Value). -/
structure ResponseRef where
  value : Option GoResponseObj
deriving Repr, DecidableEq

/-- openapi3.Parameter, reduced to its `In` location and name. -/
structure OParamValue where
  location : String
  name : String
deriving Repr, DecidableEq

/-- openapi3.ParameterRef (possibly-nil Value). -/
structure ParamRef where
  value : Option OParamValue
deriving Repr, DecidableEq

/-- openapi3.Operation, reduced to the fields createRouteConfig reads.
`responses` is the possibly-nil `*Responses`; its list stands for one
iteration order of `Responses.Map()`. -/
structure Operation where
  description : String := ""
  summary : String := ""
  responses : Option (List ResponseRef) := none
  parameters : List ParamRef := []
deriving Repr, DecidableEq

/-- The Accept-header scan of createRouteConfig: walk the responses; a
nil-valued or nil-content response is skipped; at the first response with
a non-nil content map the outer loop breaks — setting `Accept` to the
first content type if the map is non-empty, and setting nothing if the
map is empty. -/
def acceptScan : List ResponseRef → List (String × String) → List (String × String)
  | [], headers => headers
  | r :: rest, headers =>
    match r.value with
    | some v =>
      match v.content with
      | some cts =>
        match cts with
        | [] => headers
        | ct :: _ => alistSet headers "Accept" ct
      | none => acceptScan rest headers
    | none => acceptScan rest headers

/-- SwaggerParser.createRouteConfig: headers seeded with the JSON
content type; description from operation description, else summary, else
empty, passed through Adjuster.GetDescription; Accept from the response
scan; query-param names from every "query"-located parameter. -/
def createRouteConfig (adjustments : Option MCPAdjustments)
    (path method : String) (operation : Operation) : RouteConfig :=
  let headers : List (String × String) := [("Content-Type", "application/json")]
  let desc := if operation.description ≠ "" then operation.description
    else if operation.summary ≠ "" then operation.summary
    else ""
  let description := GetDescription adjustments path method desc
  let headers := match operation.responses with
    | some rs => acceptScan rs headers
    | none => headers
  let queryParams := operation.parameters.foldl
    (fun qs p =>
      match p.value with
      | some v => if v.location = "query" then qs ++ [v.name] else qs
      | none => qs) []
  { path := path, method := method, description := description,
    headers := headers,
    methodConfig := { queryParams := queryParams, formFields := [],
                      fileUpload := none } }

end AutoMCP

namespace AutoMCP

/-! ## Supporting lemmas -/

/-- Setting a key makes it readable back. -/
theorem alistGet_alistSet_self {V : Type} (m : List (String × V)) (k : String)
    (v : V) : alistGet (alistSet m k v) k = some v := by
  induction m with
  | nil => simp [alistSet, alistGet]
  | cons kv rest ih =>
    by_cases h : kv.1 = k
    · simp [alistSet, alistGet, h]
    · simp [alistSet, alistGet, h, ih]


/-- Setting one key leaves every other key's binding unchanged. -/
theorem alistGet_alistSet_ne {V : Type} (m : List (String × V)) (k' k : String)
    (v : V) (h : k' ≠ k) : alistGet (alistSet m k' v) k = alistGet m k := by
  induction m with
  | nil => simp [alistSet, alistGet, h]
  | cons kv rest ih =>
    by_cases hk : kv.1 = k'
    · simp only [alistSet, hk, if_pos rfl]
      simp [alistGet, h, hk]
    · simp only [alistSet, hk, if_neg hk]
      by_cases hk2 : kv.1 = k <;> simp [alistGet, hk2, ih]

/-- A response the Accept scan passes over: nil value or nil content map. -/
def responseSkipped (r : ResponseRef) : Bool :=
  match r.value with
  | none => true
  | some v => v.content.isNone

/-- The Accept scan ignores a skipped response. -/
theorem acceptScan_skip (r : ResponseRef) (rest : List ResponseRef)
    (headers : List (String × String)) (h : responseSkipped r = true) :
    acceptScan (r :: rest) headers = acceptScan rest headers := by
  cases hr : r.value with
  | none => simp [acceptScan, hr]
  | some v =>
    cases hc : v.content with
    | none => simp [acceptScan, hr, hc]
    | some cts =>
      exfalso
      simp [responseSkipped, hr, hc] at h

/-- The Accept scan ignores a prefix of skipped responses. -/
theorem acceptScan_drop_skipped (skipped rest : List ResponseRef)
    (headers : List (String × String))
    (h : ∀ x ∈ skipped, responseSkipped x = true) :
    acceptScan (skipped ++ rest) headers = acceptScan rest headers := by
  induction skipped with
  | nil => rfl
  | cons r rs ih =>
    rw [List.cons_append, acceptScan_skip r (rs ++ rest) headers (h r (by simp)),
      ih (fun x hx => h x (by simp [hx]))]

/-- The Accept scan writes only the `Accept` key. -/
theorem acceptScan_get_ne (rs : List ResponseRef)
    (headers : List (String × String)) (k : String) (h : k ≠ "Accept") :
    alistGet (acceptScan rs headers) k = alistGet headers k := by
  induction rs generalizing headers with
  | nil => rfl
  | cons r rest ih =>
    cases hr : r.value with
    | none => simp [acceptScan, hr, ih]
    | some v =>
      cases hc : v.content with
      | none => simp [acceptScan, hr, hc, ih]
      | some cts =>
        cases cts with
        | nil => simp [acceptScan, hr, hc]
        | cons ct more =>
          simp only [acceptScan, hr, hc]
          exact alistGet_alistSet_ne headers "Accept" k _ (fun he => h (he ▸ rfl))

/-! ## Claims about the SpecNormalizer -/

/-- C5 counterexample: a JSON document carrying both `swagger:"2.0"` and a
non-`3.`-prefixed `openapi` field is accepted through the swagger-2.0
conversion path — no unsupported-version error is raised even though the
current version field is present and not `3.`-prefixed, because a present
`swagger` field is handled first and returns before the `openapi` check. -/
theorem C5_counterexample :
    detectAndParseOpenAPI (.validJSON (some "2.0") (some "4.0"))
        = .convertedFromSwagger2 ∧
    isSpecError (detectAndParseOpenAPI (.validJSON (some "2.0") (some "4.0")))
        = false ∧
    hasPrefixStr "4.0" "3." = false := by
  decide

/-- C5 amended: malformed JSON fails with the wrapped parse error before
any version inspection; a document with neither version field fails with
the missing-version error; a present legacy field other than `"2.0"` fails
with the unsupported-swagger-version error (whatever the `openapi` field);
and a present current-version field that is not `"3."`-prefixed fails with
the unsupported-openapi-version error provided no legacy field is present
(the legacy field is inspected first and pre-empts the check). -/
theorem C5_version_detection (v w : String) (op : Option String)
    (hv : v ≠ "2.0") (hw : hasPrefixStr w "3." = false) :
    detectAndParseOpenAPI .malformed = .invalidJSON ∧
    detectAndParseOpenAPI (.validJSON none none) = .missingVersion ∧
    detectAndParseOpenAPI (.validJSON (some v) op)
        = .unsupportedSwaggerVersion v ∧
    detectAndParseOpenAPI (.validJSON none (some w))
        = .unsupportedOpenAPIVersion w := by
  refine ⟨rfl, rfl, ?_, ?_⟩
  · simp [detectAndParseOpenAPI, hv]
  · simp [detectAndParseOpenAPI, hw]

/-- Witness for C5 at `swagger:"1.0"` and `openapi:"4.0"`. -/
theorem C5_version_detection_witness :
    (("1.0" : String) ≠ "2.0" ∧ hasPrefixStr "4.0" "3." = false) ∧
    (detectAndParseOpenAPI .malformed = .invalidJSON ∧
     detectAndParseOpenAPI (.validJSON none none) = .missingVersion ∧
     detectAndParseOpenAPI (.validJSON (some "1.0") none)
        = .unsupportedSwaggerVersion "1.0" ∧
     detectAndParseOpenAPI (.validJSON none (some "4.0"))
        = .unsupportedOpenAPIVersion "4.0") :=
  ⟨⟨by decide, by decide⟩,
    C5_version_detection "1.0" "4.0" none (by decide) (by decide)⟩

/-! ## Claim about the SchemaTranslator -/

/-- C6: schema translation is total and never errors (its Go signature has
no error result; the embedding is a plain function). A nil ref, nil value
or nil type list yields the generic object node; otherwise the node kind
is the first match in the fixed priority array, object, string,
number/integer, boolean, even when several types are declared; a type
list matching none of these degrades to the generic object kind. -/
theorem C6_schema_priority (name : String) (required : Bool) (s : OSchema)
    (ts : List String) (hts : s.types = some ts) :
    (schemaToMCPOptions none name required).kind = .object ∧
    (schemaToMCPOptions (some none) name required).kind = .object ∧
    (∀ s' : OSchema, s'.types = none →
      (schemaToMCPOptions (some (some s')) name required).kind = .object) ∧
    (schemaToMCPOptions (some (some s)) name required).kind =
      (if ts.contains "array" then .array
       else if ts.contains "object" then .object
       else if ts.contains "string" then .strKind
       else if ts.contains "number" ∨ ts.contains "integer" then .number
       else if ts.contains "boolean" then .boolean
       else .object) := by
  refine ⟨rfl, rfl, ?_, ?_⟩
  · intro s' h
    simp only [schemaToMCPOptions, h]
  · simp only [schemaToMCPOptions, hts]
    split_ifs <;> rfl

/-- Witness for C6 at a schema declaring types `["boolean","array"]`: the
priority order picks `array`. -/
theorem C6_schema_priority_witness :
    ((OSchema.mk (some ["boolean", "array"]) {} none [] none).types
        = some ["boolean", "array"]) ∧
    ((schemaToMCPOptions none "p" true).kind = .object ∧
     (schemaToMCPOptions (some none) "p" true).kind = .object ∧
     (∀ s' : OSchema, s'.types = none →
       (schemaToMCPOptions (some (some s')) "p" true).kind = .object) ∧
     (schemaToMCPOptions
        (some (some (OSchema.mk (some ["boolean", "array"]) {} none [] none)))
        "p" true).kind =
      (if (["boolean", "array"] : List String).contains "array" then .array
       else if (["boolean", "array"] : List String).contains "object" then .object
       else if (["boolean", "array"] : List String).contains "string" then .strKind
       else if (["boolean", "array"] : List String).contains "number"
           ∨ (["boolean", "array"] : List String).contains "integer" then .number
       else if (["boolean", "array"] : List String).contains "boolean" then .boolean
       else .object)) :=
  ⟨rfl, C6_schema_priority "p" true
    (OSchema.mk (some ["boolean", "array"]) {} none [] none)
    ["boolean", "array"] rfl⟩

/-! ## Claims about the RouteExtractor -/

/-- C8 counterexample: an operation whose first declared response carries
an empty (non-nil) content map and whose second response declares the
content type `text/html` ends with no `Accept` header at all — the scan
breaks at the first non-nil content map without setting anything — even
though the operation declares a response with content. -/
theorem C8_counterexample :
    alistGet (createRouteConfig none "/pets" "GET"
        { responses := some [⟨some ⟨some []⟩⟩, ⟨some ⟨some ["text/html"]⟩⟩] }).headers
      "Accept" = none ∧
    alistGet (createRouteConfig none "/pets" "GET"
        { responses := some [⟨some ⟨some []⟩⟩, ⟨some ⟨some ["text/html"]⟩⟩] }).headers
      "Content-Type" = some "application/json" := by
  decide

/-- C8 amended: every extracted RouteConfig's headers contain
`Content-Type: application/json`; and scanning the operation's responses
in order while skipping those with a nil value or nil content map, if the
first remaining response has a non-empty content map then `Accept` is set
to its first content type. (If that first non-nil content map is empty,
no Accept header is set — see the counterexample.) -/
theorem C8_route_headers (adjustments : Option MCPAdjustments)
    (path method : String) (op : Operation)
    (skipped rest : List ResponseRef) (ct : String) (cts : List String)
    (hresp : op.responses
      = some (skipped ++ (⟨some ⟨some (ct :: cts)⟩⟩ : ResponseRef) :: rest))
    (hskip : ∀ x ∈ skipped, responseSkipped x = true) :
    (∀ op' : Operation,
      alistGet (createRouteConfig adjustments path method op').headers
        "Content-Type" = some "application/json") ∧
    alistGet (createRouteConfig adjustments path method op).headers "Accept"
      = some ct := by
  constructor
  · intro op'
    cases hr : op'.responses with
    | none => simp [createRouteConfig, hr, alistGet]
    | some rs =>
      simp only [createRouteConfig, hr]
      rw [acceptScan_get_ne rs _ "Content-Type" (by decide)]
      rfl
  · simp only [createRouteConfig, hresp]
    rw [acceptScan_drop_skipped skipped _ _ hskip]
    simp only [acceptScan]
    exact alistGet_alistSet_self _ "Accept" ct

/-- Witness for C8: a nil-content response followed by a `text/html`
response yields `Accept: text/html` (and the JSON content type is always
present). -/
theorem C8_route_headers_witness :
    (({ responses := some [⟨none⟩, ⟨some ⟨some ["text/html", "application/xml"]⟩⟩] } :
        Operation).responses
      = some ([⟨none⟩] ++ (⟨some ⟨some ["text/html", "application/xml"]⟩⟩ : ResponseRef)
        :: []) ∧
     ∀ x ∈ ([⟨none⟩] : List ResponseRef), responseSkipped x = true) ∧
    ((∀ op' : Operation,
      alistGet (createRouteConfig none "/pets" "GET" op').headers
        "Content-Type" = some "application/json") ∧
     alistGet (createRouteConfig none "/pets" "GET"
        { responses := some [⟨none⟩, ⟨some ⟨some ["text/html", "application/xml"]⟩⟩] }).headers
       "Accept" = some "text/html") :=
  ⟨⟨rfl, by decide⟩,
    C8_route_headers none "/pets" "GET"
      { responses := some [⟨none⟩, ⟨some ⟨some ["text/html", "application/xml"]⟩⟩] }
      [⟨none⟩] [] "text/html" ["application/xml"] rfl (by decide)⟩

/-! ## Claims about the Adjuster -/

/-- C3: with no Routes configured, `ExistsInMCP` is true for every
(path, method); with the single entry `{"/a", ["GET"]}` it is true for
`("/a","GET")`, false for `("/a","POST")` and false for `("/b","GET")`. -/
theorem C3_exists_in_selection
    (path method : String) (descs : List RouteDescription) :
    ExistsInMCP (some ⟨[], descs⟩) path method = true ∧
    ExistsInMCP none path method = true ∧
    ExistsInMCP (some ⟨[⟨"/a", ["GET"]⟩], []⟩) "/a" "GET" = true ∧
    ExistsInMCP (some ⟨[⟨"/a", ["GET"]⟩], []⟩) "/a" "POST" = false ∧
    ExistsInMCP (some ⟨[⟨"/a", ["GET"]⟩], []⟩) "/b" "GET" = false := by
  refine ⟨rfl, rfl, by decide, by decide, by decide⟩

/-- C10: lookups are first-match-by-path. With two Routes entries sharing a
path, only the first is consulted: membership is decided by the first
entry's method list alone. With two Descriptions entries sharing a path,
the override comes from the first entry's updates alone (falling back to
the original description when the first entry lacks the method). -/
theorem C10_first_match_by_path
    (p method orig : String)
    (sel₁ sel₂ : RouteSelection) (restR : List RouteSelection)
    (d₁ d₂ : RouteDescription) (restD : List RouteDescription)
    (hs₁ : sel₁.path = p) (hd₁ : d₁.path = p) :
    ExistsInMCP (some ⟨sel₁ :: sel₂ :: restR, []⟩) p method
        = sel₁.methods.contains method ∧
    GetDescription (some ⟨[], d₁ :: d₂ :: restD⟩) p method orig
        = ((findUpdate d₁.updates method).getD orig) := by
  constructor
  · simp [ExistsInMCP, existsInRoutes, hs₁]
  · simp only [GetDescription, descFromDescriptions, hd₁, if_pos rfl]
    · cases findUpdate d₁.updates method <;> simp

/-! ## Claims about the request builder, auth manager and executor -/

/-- Query string of a URL: everything after the first `?` (empty if none). -/
def queryStringOf (url : String) : String :=
  ⟨((splitAtFirst '?' url.toList).2).getD []⟩

/-- Part of a URL before the first `?`. -/
def pathPartOf (url : String) : String :=
  ⟨(splitAtFirst '?' url.toList).1⟩

/-- C1 counterexample: for the GET route `/users/{id}` with args
`{"id":"42","q":"x"}` the built URL's query string is not `q=x` — the
substituted path argument `id` reappears as a query parameter, because
`addQueryParams` only skips the keys `body` and `file`. -/
theorem C1_counterexample :
    (BuildRequest ⟨"http://api.example.com", [], "none", []⟩
        (ApplyAuth ⟨"none", []⟩)
        (some { path := "/users/{id}", method := "GET" })
        (some [("id", .str "42"), ("q", .str "x")])).toOption.map
      (fun r => queryStringOf r.url) ≠ some "q=x" := by
  decide

/-- C1 amended: the built URL's path part is `.../users/42`, but its query
string is `id=42&q=x` — every caller argument except `body` and `file`,
including those already substituted into path placeholders, is encoded as
a query parameter (sorted by key). -/
theorem C1_amended_url :
    (BuildRequest ⟨"http://api.example.com", [], "none", []⟩
        (ApplyAuth ⟨"none", []⟩)
        (some { path := "/users/{id}", method := "GET" })
        (some [("id", .str "42"), ("q", .str "x")])).toOption.map
      (fun r => (pathPartOf r.url, queryStringOf r.url))
      = some ("http://api.example.com/users/42", "id=42&q=x") := by
  decide

/-- C2: if applying authentication fails (for every request the auth
function reports an error), BuildRequest returns an error and never a
request value — whatever the route and arguments. -/
theorem C2_auth_failure_aborts (cfg : EndpointConfig)
    (authFn : HttpRequest → HttpRequest × Option String)
    (rc : Option RouteConfig) (params : Option (List (String × JValue)))
    (h : ∀ req, (authFn req).2.isSome) :
    ∃ e, BuildRequest cfg authFn rc params = Except.error e := by
  match rc with
  | none => exact ⟨"route config is nil", rfl⟩
  | some rc =>
    rcases hX : BuildRequest cfg authFn (some rc) params with e | req
    · exact ⟨e, rfl⟩
    · exfalso
      simp only [BuildRequest] at hX
      split at hX
      · exact Except.noConfusion hX
      · split at hX
        · exact Except.noConfusion hX
        · rename_i authedReq heq
          have h2 := congrArg (fun p : HttpRequest × Option String => p.2.isSome) heq
          simp [h] at h2

/-- Witness for C2: a concrete auth function that always fails makes
BuildRequest fail on a concrete route. -/
theorem C2_auth_failure_aborts_witness :
    (∀ req : HttpRequest,
      ((fun r => (r, some "boom")) req : HttpRequest × Option String).2.isSome) ∧
    ∃ e, BuildRequest ⟨"http://api.example.com", [], "none", []⟩
      (fun r => (r, some "boom"))
      (some { path := "/x", method := "GET" }) none = Except.error e :=
  ⟨fun _ => rfl,
    C2_auth_failure_aborts ⟨"http://api.example.com", [], "none", []⟩
      (fun r => (r, some "boom"))
      (some { path := "/x", method := "GET" }) none (fun _ => rfl)⟩

/-- C4: ApplyAuth with type `bearer` and config `{"token":"T"}` succeeds
and sets the `Authorization` header to `Bearer T`; with any tag outside
the closed set it fails with an "unsupported auth type" error and returns
the request unmodified. -/
theorem C4_apply_auth (req : HttpRequest) (t : String)
    (cfg : List (String × String))
    (h : t ∉ ["none", "basic", "bearer", "api_key", "oauth2"]) :
    (ApplyAuth ⟨"bearer", [("token", "T")]⟩ req).2 = none ∧
    alistGet (ApplyAuth ⟨"bearer", [("token", "T")]⟩ req).1.headers
      "Authorization" = some "Bearer T" ∧
    ApplyAuth ⟨t, cfg⟩ req = (req, some ("unsupported auth type: " ++ t)) := by
  simp only [List.mem_cons, List.not_mem_nil, or_false, not_or] at h
  obtain ⟨h1, h2, h3, h4, h5⟩ := h
  refine ⟨rfl, ?_, ?_⟩
  · show alistGet (reqSetHeader req "Authorization" ("Bearer " ++ "T")).headers
      "Authorization" = some "Bearer T"
    simpa [reqSetHeader] using
      alistGet_alistSet_self req.headers "Authorization" ("Bearer " ++ "T")
  · simp [ApplyAuth, h1, h2, h3, h4, h5]

/-- Witness for C4 at the tag `"invalid"` on a concrete request. -/
theorem C4_apply_auth_witness :
    ("invalid" ∉ ["none", "basic", "bearer", "api_key", "oauth2"]) ∧
    ((ApplyAuth ⟨"bearer", [("token", "T")]⟩ ⟨"GET", "u", [], none⟩).2 = none ∧
     alistGet (ApplyAuth ⟨"bearer", [("token", "T")]⟩
       ⟨"GET", "u", [], none⟩).1.headers "Authorization" = some "Bearer T" ∧
     ApplyAuth ⟨"invalid", []⟩ ⟨"GET", "u", [], none⟩
       = (⟨"GET", "u", [], none⟩, some ("unsupported auth type: " ++ "invalid"))) :=
  ⟨by decide, C4_apply_auth ⟨"GET", "u", [], none⟩ "invalid" [] (by decide)⟩

/-- C9: for a route whose method is none of GET/POST/PUT/PATCH,
BuildRequest with a non-nil args map JSON-encodes the entire map (its
path-substituted values included) as the body, with content type
`application/json`. -/
theorem C9_other_methods_json_body (cfg : EndpointConfig) (rc : RouteConfig)
    (m : List (String × JValue))
    (h1 : rc.method ≠ "GET") (h2 : rc.method ≠ "POST")
    (h3 : rc.method ≠ "PUT") (h4 : rc.method ≠ "PATCH") :
    ∃ req, BuildRequest cfg (ApplyAuth ⟨"none", []⟩) (some rc) (some m)
        = Except.ok req ∧
      req.body = some (.jsonBytes (jsonMarshal (.obj m))) ∧
      req.contentType = "application/json" := by
  have hm : createRequestBody rc (some m)
      = .ok (some (.jsonBytes (jsonMarshal (.obj m))), "application/json") := by
    simp [createRequestBody, h1, h2, h3, h4]
  have hcv : ("application/json" : String) ≠ "" := by decide
  simp only [BuildRequest, hm, if_neg h1, ApplyAuth, reqSetHeader, hcv,
    ne_eq, not_false_eq_true, ite_true, if_true, reduceIte]
  exact ⟨_, rfl, rfl, rfl⟩

/-- Witness for C9: a concrete DELETE route JSON-encodes the full args map
(the path argument `id` included) as the body. -/
theorem C9_other_methods_json_body_witness :
    ∃ req, BuildRequest ⟨"http://api.example.com", [], "none", []⟩
        (ApplyAuth ⟨"none", []⟩)
        (some { path := "/users/{id}", method := "DELETE" })
        (some [("id", .str "42")]) = Except.ok req ∧
      req.body = some (.jsonBytes (jsonMarshal (.obj [("id", .str "42")]))) ∧
      req.contentType = "application/json" :=
  C9_other_methods_json_body ⟨"http://api.example.com", [], "none", []⟩
    { path := "/users/{id}", method := "DELETE" } [("id", .str "42")]
    (by decide) (by decide) (by decide) (by decide)

/-- C7: the executor returns a normal Response — status code, full body
bytes, headers — for every received status whatsoever (the status code is
universally quantified, so a status ≥ 400 is included and is not an
error); it returns an error, and never a Response, exactly in the
transport-failure cases — the call itself failing, or the body read
failing — and that error wraps the underlying failure. -/
theorem C7_execute_classification (resp : GoHTTPResponse)
    (bodyBytes : List Nat) (e : String)
    (hb : resp.bodyRead = .ok bodyBytes) :
    execute (.ok resp)
        = .ok ⟨resp.statusCode, bodyBytes, resp.headers⟩ ∧
    execute (.error e) = .error ("request failed: " ++ e) ∧
    (∀ r : Response, execute (.error e) ≠ .ok r) ∧
    (∀ resp' : GoHTTPResponse, resp'.bodyRead = .error e →
      execute (.ok resp') = .error ("failed to read response body: " ++ e) ∧
      ∀ r : Response, execute (.ok resp') ≠ .ok r) := by
  refine ⟨?_, rfl, fun r hr => by simp [execute] at hr, ?_⟩
  · simp [execute, hb]
  · intro resp' h'
    refine ⟨by simp [execute, h'], fun r hr => ?_⟩
    simp [execute, h'] at hr

/-- Witness for C7 at a concrete 500 response. -/
theorem C7_execute_classification_witness :
    ((⟨500, [("X", "y")], .ok [104, 105]⟩ : GoHTTPResponse).bodyRead
        = .ok [104, 105]) ∧
    (execute (.ok ⟨500, [("X", "y")], .ok [104, 105]⟩)
        = .ok ⟨500, [104, 105], [("X", "y")]⟩ ∧
      execute (.error "dial tcp: timeout")
        = .error ("request failed: " ++ "dial tcp: timeout") ∧
      (∀ r : Response, execute (.error "dial tcp: timeout") ≠ .ok r) ∧
      (∀ resp' : GoHTTPResponse, resp'.bodyRead = .error "dial tcp: timeout" →
        execute (.ok resp')
            = .error ("failed to read response body: " ++ "dial tcp: timeout") ∧
        ∀ r : Response, execute (.ok resp') ≠ .ok r)) :=
  ⟨rfl,
    C7_execute_classification ⟨500, [("X", "y")], .ok [104, 105]⟩
      [104, 105] "dial tcp: timeout" rfl⟩

/-- Witness for C10 at a concrete duplicated-path configuration: the method
`"POST"` listed only in the second `/a` entry is reported absent, and the
override in the second `/a` description entry is ignored. -/
theorem C10_first_match_by_path_witness :
    ExistsInMCP (some ⟨[⟨"/a", ["GET"]⟩, ⟨"/a", ["POST"]⟩], []⟩) "/a" "POST"
        = (["GET"] : List String).contains "POST" ∧
    GetDescription
        (some ⟨[], [⟨"/a", [⟨"GET", "first"⟩]⟩, ⟨"/a", [⟨"POST", "second"⟩]⟩]⟩)
        "/a" "POST" "orig"
        = ((findUpdate [⟨"GET", "first"⟩] "POST").getD "orig") :=
  C10_first_match_by_path "/a" "POST" "orig"
    ⟨"/a", ["GET"]⟩ ⟨"/a", ["POST"]⟩ []
    ⟨"/a", [⟨"GET", "first"⟩]⟩ ⟨"/a", [⟨"POST", "second"⟩]⟩ []
    rfl rfl

end AutoMCP
